import Mathlib

/-!
Verification of the familienpass-tools repository (scraper, grouper and
calendar/reminder export). Python strings are modelled as `List Char`
(Python compares strings by Unicode code points, which `Char.toNat`
reflects); `None`/absent values as `Option`; spreadsheet rows and event
records as structures. All definitions are translated from the Python
sources (`src/scraper.py`, `src/create_calendar.py`, `src/utils.py`,
`src/config.py`); each carries a note pointing to its origin.
-/

/-- Model of Python `str.strip()`: remove leading and trailing whitespace. -/
def trimChars (cs : List Char) : List Char :=
  ((cs.dropWhile Char.isWhitespace).reverse.dropWhile Char.isWhitespace).reverse

/-- `leadsWith pat cs` is true when `pat` occurs at the very start of `cs`. -/
def leadsWith : List Char → List Char → Bool
  | [], _ => true
  | _ :: _, [] => false
  | a :: as, b :: bs => a == b && leadsWith as bs

/-- Model of Python `needle in hay` substring containment. -/
def containsSub : List Char → List Char → Bool
  | [], needle => needle == []
  | c :: rest, needle => leadsWith needle (c :: rest) || containsSub rest needle

/-- Model of Python `hay.split(sep, 1)`: split at the first occurrence of
`sep`; `none` when `sep` does not occur (Python then returns the whole
string unsplit, which the callers detect through `sep in hay` first). -/
def splitFirst (sep : List Char) : List Char → Option (List Char × List Char)
  | [] => none
  | c :: rest =>
    if leadsWith sep (c :: rest) then some ([], (c :: rest).drop sep.length)
    else
      match splitFirst sep rest with
      | some (pre, post) => some (c :: pre, post)
      | none => none

/-- Model of Python `s.split('.')` (split on every dot, keeping empty parts). -/
def splitOnChar (sep : Char) : List Char → List (List Char)
  | [] => [[]]
  | c :: rest =>
    match splitOnChar sep rest with
    | [] => [[c]]
    | h :: t => if c == sep then [] :: h :: t else (c :: h) :: t

/-- Model of Python `s.lower()` (the labels compared in the sources are ASCII). -/
def lowerStr (cs : List Char) : List Char := cs.map Char.toLower

/-- One pass collapsing every whitespace run to a single space; `prevWS`
records whether the previous character was part of a run. -/
def collapseWS (prevWS : Bool) : List Char → List Char
  | [] => []
  | c :: rest =>
    if c.isWhitespace then
      (if prevWS then [] else [' ']) ++ collapseWS true rest
    else c :: collapseWS false rest

/-- `utils.clean_text`: collapse all whitespace runs (including newlines) to
single spaces, then strip the ends. -/
def clean_text (cs : List Char) : List Char := trimChars (collapseWS false cs)

/-- Model of Python `s.replace(' bis ', ' - ')` as used on the sign-up text
in `scraper.parse_event_page` (left-to-right, non-overlapping). -/
def replaceBis : List Char → List Char
  | ' ' :: 'b' :: 'i' :: 's' :: ' ' :: rest => ' ' :: '-' :: ' ' :: replaceBis rest
  | c :: rest => c :: replaceBis rest
  | [] => []

/-- A calendar date as produced by `datetime.strptime(s, '%d.%m.%Y')`. -/
structure Date where
  year : Nat
  month : Nat
  day : Nat

deriving DecidableEq, Repr

/-- Gregorian leap-year rule used by Python's `datetime` validation. -/
def isLeapYear (y : Nat) : Bool := (y % 4 == 0 && y % 100 != 0) || y % 400 == 0

/-- Number of days of month `m` in year `y` (Python `datetime` validation). -/
def daysInMonth (m y : Nat) : Nat :=
  if m == 2 then (if isLeapYear y then 29 else 28)
  else if m == 4 || m == 6 || m == 9 || m == 11 then 30
  else 31

/-- Chronological comparison of dates, as Python compares `datetime` values. -/
def dateLeB (a b : Date) : Bool :=
  decide (a.year < b.year) ||
    (a.year == b.year &&
      (decide (a.month < b.month) ||
        (a.month == b.month && decide (a.day ≤ b.day))))

/-- `datetime + timedelta(days=1)` on a valid date (calendar rollover; the
year-9999 overflow that `datetime` raises on is outside the dates the
sources handle). -/
def addOneDay (d : Date) : Date :=
  if d.day < daysInMonth d.month d.year then ⟨d.year, d.month, d.day + 1⟩
  else if d.month < 12 then ⟨d.year, d.month + 1, 1⟩
  else ⟨d.year + 1, 1, 1⟩

/-- Numeric value of a decimal digit character. -/
def digitVal (c : Char) : Nat := c.toNat - 48

/-- Model of `re.match(r'\d{2}\.\d{2}\.\d{4}', s)` from
`create_calendar.parse_date_range`: a `DD.MM.YYYY` group at the start of the
string, trailing text ignored; yields the three numeric components. -/
def dateHeadNums : List Char → Option (Nat × Nat × Nat)
  | d1 :: d2 :: '.' :: m1 :: m2 :: '.' :: y1 :: y2 :: y3 :: y4 :: _ =>
    if d1.isDigit && d2.isDigit && m1.isDigit && m2.isDigit &&
       y1.isDigit && y2.isDigit && y3.isDigit && y4.isDigit then
      some (10 * digitVal d1 + digitVal d2,
            10 * digitVal m1 + digitVal m2,
            1000 * digitVal y1 + 100 * digitVal y2 + 10 * digitVal y3 + digitVal y4)
    else none
  | _ => none

/-- The inner `parse_date` helper of `create_calendar.parse_date_range`:
match a `DD.MM.YYYY` group at the start of the stripped string, then
validate it through `datetime.strptime` (month 1–12, day within the month,
year at least 1; the four digits bound the year by 9999). -/
def parse_date (cs : List Char) : Option Date :=
  match dateHeadNums (trimChars cs) with
  | some (d, m, y) =>
    if 1 ≤ y ∧ 1 ≤ m ∧ m ≤ 12 ∧ 1 ≤ d ∧ d ≤ daysInMonth m y then
      some ⟨y, m, d⟩
    else none
  | none => none

/-- The `'Not specified'` sentinel written by the scraper. -/
def notSpecified : List Char := "Not specified".data

/-- The direct-registration phrase checked by `parse_date_range`. -/
def organizerPhrase : List Char := "direkt beim Veranstalter".data

/-- The `' - '` range separator. -/
def sepDash : List Char := " - ".data

/-- `create_calendar.parse_date_range`: `None` for empty input, the
`'Not specified'` sentinel, or text containing the direct-registration
phrase; otherwise strip, split at the first `' - '` when present and
require both halves to parse (else `None`), or parse the whole string as a
single date `d` giving `(d, d)` (else `None`). -/
def parse_date_range (cs : List Char) : Option (Date × Date) :=
  if cs = [] ∨ cs = notSpecified then none
  else if containsSub cs organizerPhrase then none
  else
    match splitFirst sepDash (trimChars cs) with
    | some (p1, p2) =>
      match parse_date p1, parse_date p2 with
      | some a, some b => some (a, b)
      | _, _ => none
    | none =>
      match parse_date (trimChars cs) with
      | some d => some (d, d)
      | none => none

/-- One scraped appearance of an event, as built by
`scraper.parse_event_page` (the 8-field dictionary). -/
structure EventOcc where
  name : List Char
  age : List Char
  place : List Char
  date : List Char
  time : List Char
  sign_up_date : List Char
  event_url : List Char
  description : List Char

deriving DecidableEq, Repr

/-- A row produced by `scraper.group_events_by_name` (the event dictionary
plus the `is_continuation` flag). -/
structure OutputRow where
  name : List Char
  event_url : List Char
  description : List Char
  age : List Char
  place : List Char
  date : List Char
  time : List Char
  sign_up_date : List Char
  is_continuation : Bool

deriving DecidableEq, Repr

/-- The `('9999', '99', '99')` sort sentinel for unknown dates. -/
def sentinelKey : List Char × List Char × List Char :=
  ("9999".data, "99".data, "99".data)

/-- `scraper.group_events_by_name.parse_date_for_sort`: split the date string
on `'.'`; exactly three parts give the reversed `(parts[2], parts[1],
parts[0])` string triple, anything else the `('9999','99','99')` sentinel. -/
def parse_date_for_sort (date_str : List Char) : List Char × List Char × List Char :=
  match splitOnChar '.' date_str with
  | [d, m, y] => (y, m, d)
  | _ => sentinelKey

/-- Python string `<` (lexicographic on code points). -/
def strLtB : List Char → List Char → Bool
  | [], [] => false
  | [], _ :: _ => true
  | _ :: _, [] => false
  | a :: as, b :: bs =>
    if a.toNat < b.toNat then true
    else if b.toNat < a.toNat then false
    else strLtB as bs

/-- Python tuple `<` on the string triples used as sort keys. -/
def keyLtB :
    (List Char × List Char × List Char) → (List Char × List Char × List Char) → Bool
  | (y1, m1, d1), (y2, m2, d2) =>
    if strLtB y1 y2 then true
    else if strLtB y2 y1 then false
    else if strLtB m1 m2 then true
    else if strLtB m2 m1 then false
    else strLtB d1 d2

/-- The sort key `parse_date_for_sort(e.get('date', ''))` of an occurrence. -/
def sortKey (e : EventOcc) : List Char × List Char × List Char :=
  parse_date_for_sort e.date

/-- Stable insertion of `x` into `l`: `x` goes before the first element that
is not strictly below it, so an element inserted from the left stays before
elements with an equal key. -/
def insertOcc (x : EventOcc) : List EventOcc → List EventOcc
  | [] => [x]
  | y :: ys =>
    if keyLtB (sortKey y) (sortKey x) then y :: insertOcc x ys else x :: y :: ys

/-- Model of `occurrences.sort(key=parse_date_for_sort ∘ date)`: Python's
`list.sort` is stable, and stable ascending sorting by a key is computed by
this insertion sort. -/
def sortOcc : List EventOcc → List EventOcc
  | [] => []
  | x :: xs => insertOcc x (sortOcc xs)

/-- Key order of the `OrderedDict` built by `group_events_by_name`: the
distinct event names in order of first appearance. -/
def firstSeenAux (seen : List (List Char)) : List EventOcc → List (List Char)
  | [] => []
  | e :: rest =>
    if seen.contains e.name then firstSeenAux seen rest
    else e.name :: firstSeenAux (e.name :: seen) rest

/-- Distinct event names of `evs` in first-seen order. -/
def firstSeenNames (evs : List EventOcc) : List (List Char) := firstSeenAux [] evs

/-- The first sorted occurrence of a group: all fields kept,
`is_continuation = False`. -/
def primaryRow (e : EventOcc) : OutputRow :=
  { name := e.name, event_url := e.event_url, description := e.description,
    age := e.age, place := e.place, date := e.date, time := e.time,
    sign_up_date := e.sign_up_date, is_continuation := false }

/-- A later occurrence of the group named `n`: only name (the group key),
URL, date, time and sign-up text kept; description, age and place blanked;
`is_continuation = True`. -/
def contRow (n : List Char) (e : EventOcc) : OutputRow :=
  { name := n, event_url := e.event_url, description := [], age := [],
    place := [], date := e.date, time := e.time,
    sign_up_date := e.sign_up_date, is_continuation := true }

/-- Rows emitted for one group (already sorted): index 0 becomes the primary
row, the rest continuation rows. -/
def emitGroup (n : List Char) : List EventOcc → List OutputRow
  | [] => []
  | e :: rest => primaryRow e :: rest.map (contRow n)

/-- The rows of the group keyed by `n`: its occurrences in input order,
sorted by the date key, then rendered primary-then-continuations. -/
def blockRows (evs : List EventOcc) (n : List Char) : List OutputRow :=
  emitGroup n (sortOcc (evs.filter (fun e => e.name == n)))

/-- `scraper.group_events_by_name`: group occurrences by name in an
`OrderedDict` (first-seen key order, per-key occurrences in input order),
sort each group by `parse_date_for_sort`, and emit each group as one
primary row followed by continuation rows. -/
def group_events_by_name (evs : List EventOcc) : List OutputRow :=
  (firstSeenNames evs).flatMap (blockRows evs)

/-- An occurrence with every field empty except name and date; enough to
exercise the grouper, whose sort key only reads `date`. -/
def mkOcc (nm dt : List Char) : EventOcc :=
  { name := nm, age := [], place := [], date := dt, time := [],
    sign_up_date := [], event_url := [], description := [] }

/-- The not-below relation between occurrences used to state sortedness. -/
def keyLeR (a b : EventOcc) : Prop := keyLtB (sortKey b) (sortKey a) = false

/-- Two occurrences used to witness the continuation-row claims. -/
def wOccA : EventOcc := mkOcc ("Z".data) ("02.06.2024".data)

/-- The earlier-dated of the two witness occurrences. -/
def wOccB : EventOcc := mkOcc ("Z".data) ("01.06.2024".data)

/-- `config.CONTINUATION_LINK_MARKER`, the glyph written into the Event
Name column of continuation rows. -/
def CONTINUATION_LINK_MARKER : List Char := "↗".data

/-- A spreadsheet data row as written by `scraper.save_to_excel` and read
back by `create_calendar.create_calendar_events` (columns A, B with its
hyperlink, C, D, E, F, G, H). -/
structure XRow where
  selected : List Char
  name : List Char
  hyperlink : Option (List Char)
  description : List Char
  age : List Char
  place : List Char
  date : List Char
  time : List Char
  sign_up : List Char

deriving DecidableEq, Repr

/-- The continuation test of `create_calendar.create_calendar_events`:
`not event_name or str(event_name).strip() in ('', MARKER)`. -/
def isContRow (r : XRow) : Bool :=
  r.name == [] || trimChars r.name == [] ||
    trimChars r.name == CONTINUATION_LINK_MARKER

/-- The selection test `selected and str(selected).strip() != ''`. -/
def isSelectedVal (s : List Char) : Bool :=
  !(s == []) && !(trimChars s == [])

/-- Model of the Python dict lookup `selections.get(name, '')`. -/
def lookupSel : List (List Char × List Char) → List Char → List Char
  | [], _ => []
  | (k, v) :: rest, n => if k == n then v else lookupSel rest n

/-- Model of the Python dict update `selections[name] = selected`
(overwrite in place, append when new). -/
def dictSet : List (List Char × List Char) → List Char → List Char
    → List (List Char × List Char)
  | [], k, v => [(k, v)]
  | (k0, v0) :: rest, k, v =>
    if k0 == k then (k0, v) :: rest else (k0, v0) :: dictSet rest k v

/-- `scraper.load_existing_selections`: walk the prior sheet's rows and
record `name → selected` for every row with a nonempty name and a
selection that is nonempty after stripping. -/
def load_existing_selections (rows : List XRow) : List (List Char × List Char) :=
  rows.foldl
    (fun acc r =>
      if r.name ≠ [] ∧ r.selected ≠ [] ∧ trimChars r.selected ≠ [] then
        dictSet acc r.name r.selected
      else acc)
    []

/-- One grouped row rendered into the sheet by `scraper.save_to_excel`:
continuation rows get an empty selection, the marker glyph hyperlinked to
their own URL and blank description/age/place; primary rows get
`selections.get(name, '')`, the hyperlinked name and all fields. -/
def toSheetRow (sel : List (List Char × List Char)) (o : OutputRow) : XRow :=
  if o.is_continuation then
    { selected := [], name := CONTINUATION_LINK_MARKER,
      hyperlink := some o.event_url, description := [], age := [], place := [],
      date := o.date, time := o.time, sign_up := o.sign_up_date }
  else
    { selected := lookupSel sel o.name, name := o.name,
      hyperlink := some o.event_url, description := o.description,
      age := o.age, place := o.place,
      date := o.date, time := o.time, sign_up := o.sign_up_date }

/-- `scraper.save_to_excel`: group the occurrences and write one sheet row
per grouped row. -/
def save_to_excel (evs : List EventOcc)
    (sel : List (List Char × List Char)) : List XRow :=
  (group_events_by_name evs).map (toSheetRow sel)

/-- The decimal digit character of `n % 10`. -/
def digitChar (n : Nat) : Char := Char.ofNat (48 + n % 10)

/-- Two-digit zero-padded decimal rendering. -/
def pad2 (n : Nat) : List Char := [digitChar (n / 10), digitChar n]

/-- Four-digit zero-padded decimal rendering. -/
def pad4 (n : Nat) : List Char :=
  [digitChar (n / 1000), digitChar (n / 100), digitChar (n / 10), digitChar n]

/-- Python `datetime.isoformat()` of a midnight datetime:
`YYYY-MM-DDT00:00:00`. -/
def isoDatetime (d : Date) : List Char :=
  pad4 d.year ++ "-".data ++ pad2 d.month ++ "-".data ++ pad2 d.day
    ++ "T00:00:00".data

/-- The UID source string
`f"{name}-{start.isoformat()}-{end.isoformat()}"` of
`create_calendar.create_calendar_events`. The code feeds this string to
SHA-256, truncates the hex digest to 32 characters and appends
`"@familienpass"`; that digest is itself a fixed deterministic function of
this source string, so the model uses the source string as the
identifier. -/
def uidOf (nm : List Char) (s e : Date) : List Char :=
  nm ++ "-".data ++ isoDatetime s ++ "-".data ++ isoDatetime e

/-- The summary text `'Anmeldung Familienpass: '` prepended to the name. -/
def summaryTag : List Char := "Anmeldung Familienpass: ".data

/-- One calendar entry emitted by `create_calendar.create_calendar_events`
(summary, DTSTART, exclusive DTEND, UID, optional URL). -/
structure CalEntry where
  summary : List Char
  dtstart : Date
  dtend : Date
  uid : List Char
  url : Option (List Char)

deriving DecidableEq, Repr

/-- The row loop of `create_calendar.create_calendar_events`, carried out
with the two state variables `current_selected_event` (here the selected
event's name) and `current_event_url`; returns the emitted entries and
the skipped-row count. -/
def calWalkGo : Option (List Char) → Option (List Char) → List XRow
    → List CalEntry × Nat
  | _, _, [] => ([], 0)
  | cur, curUrl, r :: rest =>
    let isCont := isContRow r
    let cur2 := if isCont then cur
      else if isSelectedVal r.selected then some r.name else none
    let curUrl2 := if isCont then curUrl
      else if isSelectedVal r.selected then r.hyperlink else none
    match cur2 with
    | none => calWalkGo none curUrl2 rest
    | some nm =>
      let rowUrl := if isCont && r.hyperlink.isSome then r.hyperlink else curUrl2
      match parse_date_range r.sign_up with
      | none =>
        let t := calWalkGo cur2 curUrl2 rest
        (t.1, t.2 + 1)
      | some (s, e) =>
        let t := calWalkGo cur2 curUrl2 rest
        ({ summary := summaryTag ++ nm, dtstart := s, dtend := addOneDay e,
           uid := uidOf nm s e, url := rowUrl } :: t.1, t.2)

/-- `create_calendar.create_calendar_events` on the sheet's data rows:
start the walk with no selected event. -/
def create_calendar_events (rows : List XRow) : List CalEntry × Nat :=
  calWalkGo none none rows

/-- The walker state determined by the governing primary row: when a
selected primary governs, its name and hyperlink; otherwise nothing. -/
def govState : Option XRow → Option (List Char) × Option (List Char)
  | none => (none, none)
  | some p =>
    if isSelectedVal p.selected then (some p.name, p.hyperlink)
    else (none, none)

/-- Modelled from the spec: pair every row with its governing row — the
nearest preceding (or own) row whose name cell is neither blank nor the
marker glyph. -/
def annotateGov : Option XRow → List XRow → List (XRow × Option XRow)
  | _, [] => []
  | g, r :: rest =>
    let g2 := if isContRow r then g else some r
    (r, g2) :: annotateGov g2 rest

/-- The calendar entry for row `r` governed by the selected primary `p`
with parsed window `(s, e)`: start is the window start, end the window end
plus one day (end-exclusive convention), the identifier a function of the
event name and both window bounds only, and the URL the continuation row's
own hyperlink when present, else the primary's. -/
def mkEntry (p r : XRow) (s e : Date) : CalEntry :=
  { summary := summaryTag ++ p.name,
    dtstart := s,
    dtend := addOneDay e,
    uid := uidOf p.name s e,
    url := if isContRow r && r.hyperlink.isSome then r.hyperlink else p.hyperlink }

/-- Modelled from the spec: a governed row yields an entry exactly when its
governing row is selected and its sign-up text parses to a window. -/
def calEmit : XRow × Option XRow → Option CalEntry
  | (r, some p) =>
    if isSelectedVal p.selected then
      match parse_date_range r.sign_up with
      | some (s, e) => some (mkEntry p r s e)
      | none => none
    else none
  | (_, none) => none

/-- Modelled from the spec: a row is counted as skipped exactly when its
governing row is selected but its sign-up text has no parsable window. -/
def calSkip : XRow × Option XRow → Bool
  | (r, some p) => isSelectedVal p.selected && (parse_date_range r.sign_up).isNone
  | (_, none) => false

/-- Modelled from the spec (the declarative reading of the calendar
export): one entry per row whose governing primary is selected and whose
window parses, in row order, plus the count of governed-but-unparsable
rows. -/
def calendarEntriesSpec (rows : List XRow) : List CalEntry × Nat :=
  ((annotateGov none rows).filterMap calEmit,
   ((annotateGov none rows).filter calSkip).length)

/-- A parsed page element: tag name and contained text. The detail parser
reads pages whose title, labelled `h3` sections and paragraphs are
siblings, so the document is modelled as that sibling list. -/
structure Elem where
  tag : List Char
  text : List Char

deriving DecidableEq, Repr

/-- `soup.find(tag)`: the first element with the given tag, together with
its following siblings. -/
def findFirstTag (t : List Char) : List Elem → Option (Elem × List Elem)
  | [] => none
  | e :: rest => if e.tag == t then some (e, rest) else findFirstTag t rest

/-- `utils.extract_field_by_header`: scan the `h3` headings in document
order; at the first whose text contains the label case-insensitively,
return the cleaned text of the next sibling; a matching heading with no
following sibling contributes nothing. -/
def extract_field_by_header : List Elem → List Char → List Char
  | [], _ => []
  | e :: rest, label =>
    if e.tag == "h3".data && containsSub (lowerStr e.text) (lowerStr label) then
      match rest with
      | [] => []
      | nxt :: _ => clean_text nxt.text
    else extract_field_by_header rest label

/-- The description walk of `scraper.parse_event_page`: from the siblings
after the title, stop at the first `h3`, and take the first paragraph whose
cleaned text exceeds 50 characters. -/
def descAfterH2 : List Elem → List Char
  | [] => []
  | e :: rest =>
    if e.tag == "h3".data then []
    else if e.tag == "p".data && (clean_text e.text).length > 50 then
      clean_text e.text
    else descAfterH2 rest

/-- The description fallback: the first paragraph anywhere on the page
whose cleaned text exceeds 50 characters. -/
def firstSubstantialPara : List Elem → List Char
  | [] => []
  | e :: rest =>
    if e.tag == "p".data && (clean_text e.text).length > 50 then clean_text e.text
    else firstSubstantialPara rest

/-- The fixed sentence stored when registration is with the organizer. -/
def directRegistrationText : List Char :=
  "Die Anmeldung erfolgt direkt beim Veranstalter.".data

/-- The sign-up extraction of `scraper.parse_event_page`: an
`Anmeldebeginn` section containing `Verlosungszeitraum` yields the text
after the first colon (or the whole text when there is no colon) with
`' bis '` replaced by `' - '`; failing that, an `Anmeldung` section
containing the direct-registration phrase yields the fixed sentence. -/
def signUpFromDoc (doc : List Elem) : List Char :=
  let anmeldebeginn := extract_field_by_header doc ("Anmeldebeginn".data)
  let su :=
    if anmeldebeginn ≠ [] ∧ containsSub anmeldebeginn ("Verlosungszeitraum".data) then
      replaceBis
        (match splitFirst [':'] anmeldebeginn with
         | some (_, post) => trimChars post
         | none => anmeldebeginn)
    else []
  if su ≠ [] then su
  else
    let anmeldung := extract_field_by_header doc ("Anmeldung".data)
    if anmeldung ≠ [] ∧ containsSub anmeldung organizerPhrase then
      directRegistrationText
    else []

/-- The placeholder used when no substantial description is found. -/
def noDescriptionText : List Char := "No description available".data

/-- `scraper.parse_event_page`: build the 8-field record — the title text
as name (empty when absent), the four labelled fields, the sign-up text
(falling back to `'Not specified'`), the given URL, and the description
(post-title walk, then the page-wide fallback, then the placeholder). -/
def parse_event_page (doc : List Elem) (url : List Char) : EventOcc :=
  let nameV :=
    match findFirstTag ("h2".data) doc with
    | some (h2, _) => clean_text h2.text
    | none => []
  let su := signUpFromDoc doc
  let desc1 :=
    match findFirstTag ("h2".data) doc with
    | some (_, rest) => descAfterH2 rest
    | none => []
  let desc := if desc1 ≠ [] then desc1 else firstSubstantialPara doc
  { name := nameV,
    age := extract_field_by_header doc ("Alter".data),
    place := extract_field_by_header doc ("Treffpunkt".data),
    date := extract_field_by_header doc ("Datum".data),
    time := extract_field_by_header doc ("Uhrzeit".data),
    sign_up_date := if su ≠ [] then su else notSpecified,
    event_url := url,
    description := if desc ≠ [] then desc else noDescriptionText }

/-- `scraper.scrape_event_details`: on a successful fetch, parse the page
and fall back to the listing date when the detail date is empty; on a
fetch or parse failure, the placeholder record with the error marker in
the name and the failure text in the description. -/
def scrape_event_details (fetched : Except (List Char) (List Elem))
    (event_url listing_date : List Char) : EventOcc :=
  match fetched with
  | .ok doc =>
    let d := parse_event_page doc event_url
    if d.date = [] ∧ listing_date ≠ [] then { d with date := listing_date }
    else d
  | .error msg =>
    { name := "ERROR: ".data ++ event_url,
      age := [], place := [],
      date := listing_date, time := [], sign_up_date := [],
      event_url := event_url,
      description := "Scraping failed: ".data ++ msg }

/-- What one fetch attempt can come back with. -/
inductive FetchOutcome where
  | success (body : List Char)
  | timeout
  | httpError (code : Nat)
  | netError

deriving DecidableEq, Repr

/-- The exception finally raised by `utils.make_request_with_retry`. -/
inductive RetryErr where
  | timeout
  | http (code : Nat)
  | net
  | exhausted

deriving DecidableEq, Repr

deriving instance DecidableEq for Except

/-- Result of the retry loop: the returned body or raised error, the
sequence of sleeps performed, and the number of attempts made. -/
structure RetryResult where
  outcome : Except RetryErr (List Char)
  waits : List Nat
  attempts : Nat

deriving DecidableEq, Repr

/-- `config.MAX_RETRIES`. -/
def MAX_RETRIES : Nat := 3

/-- `config.INITIAL_BACKOFF` (seconds). -/
def INITIAL_BACKOFF : Nat := 2

/-- The `for attempt in range(max_retries)` loop of
`utils.make_request_with_retry`, over the remaining attempt indices, with
the attempt outcomes supplied by `oracle`: timeouts sleep
`delay * 2 ** attempt` before retrying and raise on the last attempt;
HTTP 429/503 sleeps `delay * 2` (even before a final raise) and retries;
any other HTTP error raises at once; other network errors sleep `delay`
before retrying and raise on the last attempt; an empty index list hits
the final `raise` after the loop. -/
def retryFrom (oracle : Nat → FetchOutcome) (maxR delay : Nat) :
    List Nat → RetryResult
  | [] => ⟨.error .exhausted, [], 0⟩
  | attempt :: rest =>
    match oracle attempt with
    | .success body => ⟨.ok body, [], 1⟩
    | .timeout =>
      if attempt < maxR - 1 then
        let r := retryFrom oracle maxR delay rest
        ⟨r.outcome, delay * 2 ^ attempt :: r.waits, r.attempts + 1⟩
      else ⟨.error .timeout, [], 1⟩
    | .httpError code =>
      if code = 429 ∨ code = 503 then
        if attempt < maxR - 1 then
          let r := retryFrom oracle maxR delay rest
          ⟨r.outcome, delay * 2 :: r.waits, r.attempts + 1⟩
        else ⟨.error (.http code), [delay * 2], 1⟩
      else ⟨.error (.http code), [], 1⟩
    | .netError =>
      if attempt < maxR - 1 then
        let r := retryFrom oracle maxR delay rest
        ⟨r.outcome, delay :: r.waits, r.attempts + 1⟩
      else ⟨.error .net, [], 1⟩

/-- `utils.make_request_with_retry` with the configured defaults. -/
def make_request_with_retry (oracle : Nat → FetchOutcome) : RetryResult :=
  retryFrom oracle MAX_RETRIES INITIAL_BACKOFF (List.range MAX_RETRIES)

/-- The occurrence used to witness the selection carry-over. -/
def wSelOcc : EventOcc := mkOcc ("Zoo Besuch".data) ("01.06.2024".data)

/-- The prior-selections map used in the carry-over witness. -/
def wSelMap : List (List Char × List Char) := [("Zoo Besuch".data, "X".data)]

/-- The regenerated primary row of the carry-over witness. -/
def wSelRow : XRow := toSheetRow wSelMap (primaryRow wSelOcc)

/-- C1 counterexample: the input `"02.01.2024 - 01.01.2024"` is of the form
`D1 - D2` with two valid `DD.MM.YYYY` prefixes, yet `parse_date_range`
returns the pair unordered: the start 02.01.2024 is strictly after the end
01.01.2024, refuting `start <= end`. -/
theorem c1_counterexample :
    parse_date_range ("02.01.2024 - 01.01.2024".data)
      = some (⟨2024, 1, 2⟩, ⟨2024, 1, 1⟩)
    ∧ dateLeB ⟨2024, 1, 2⟩ ⟨2024, 1, 1⟩ = false := by decide

/-- C1 (amended): `parse_date_range` returns, for an input whose stripped
text contains the `' - '` separator and whose two halves both carry valid
`DD.MM.YYYY` prefixes, exactly the pair of the two parsed dates with no
ordering guarantee between them; for an input that is a single valid date
(no separator, sentinels not matching, the stripped text parsing to `d`)
it succeeds and returns the pair `(d, d)` — so any returned single-date
pair has `start = end`. -/
theorem c1_amended (cs : List Char) :
    (∀ a b : Date, parse_date_range cs = some (a, b) →
      splitFirst sepDash (trimChars cs) = none → a = b)
    ∧ (∀ (p q : List Char) (a b : Date),
        splitFirst sepDash (trimChars cs) = some (p, q) →
        parse_date p = some a → parse_date q = some b →
        ¬(cs = [] ∨ cs = notSpecified) → containsSub cs organizerPhrase = false →
        parse_date_range cs = some (a, b))
    ∧ (∀ d : Date,
        splitFirst sepDash (trimChars cs) = none →
        parse_date (trimChars cs) = some d →
        ¬(cs = [] ∨ cs = notSpecified) → containsSub cs organizerPhrase = false →
        parse_date_range cs = some (d, d)) := by
  refine ⟨?_, ?_, ?_⟩
  · intro a b h hsplit
    unfold parse_date_range at h
    split at h
    · exact absurd h (by simp)
    · split at h
      · exact absurd h (by simp)
      · simp only [hsplit] at h
        rcases hd : parse_date (trimChars cs) with _ | d <;> simp [hd] at h
        exact h.1.symm.trans h.2
  · intro p q a b hsplit hp hq hne hphrase
    unfold parse_date_range
    rw [if_neg hne]
    simp [hphrase, hsplit, hp, hq]
  · intro d hsplit hd hne hphrase
    unfold parse_date_range
    rw [if_neg hne]
    simp [hphrase, hsplit, hd]

/-- C1 witness: a concrete valid range input on which the amended claim's
range case fires, and a concrete single valid date on which the
single-date case succeeds with `start = end`. -/
theorem c1_amended_witness :
    parse_date_range ("01.05.2024 - 10.05.2024".data)
      = some (⟨2024, 5, 1⟩, ⟨2024, 5, 10⟩)
    ∧ parse_date_range ("15.06.2024".data)
        = some (⟨2024, 6, 15⟩, ⟨2024, 6, 15⟩) :=
  ⟨(c1_amended ("01.05.2024 - 10.05.2024".data)).2.1
    ("01.05.2024".data) ("10.05.2024".data) ⟨2024, 5, 1⟩ ⟨2024, 5, 10⟩
    (by decide) (by decide) (by decide) (by decide) (by decide),
   (c1_amended ("15.06.2024".data)).2.2 ⟨2024, 6, 15⟩
    (by decide) (by decide) (by decide) (by decide)⟩

/-- C5: `parse_date_range` yields the no-window result (`none`) for the
empty string, for the `'Not specified'` sentinel, for any text containing
the direct-registration phrase, and whenever a date component of a range
(Rule 3) or of a single date (Rule 4) fails to parse — in the malformed
case the whole window is `none`, never a partial pair. -/
theorem c5_no_window :
    parse_date_range [] = none
    ∧ parse_date_range notSpecified = none
    ∧ (∀ cs : List Char, containsSub cs organizerPhrase = true →
        parse_date_range cs = none)
    ∧ (∀ (cs p q : List Char), splitFirst sepDash (trimChars cs) = some (p, q) →
        (parse_date p = none ∨ parse_date q = none) → parse_date_range cs = none)
    ∧ (∀ cs : List Char, splitFirst sepDash (trimChars cs) = none →
        parse_date (trimChars cs) = none → parse_date_range cs = none) := by
  refine ⟨by decide, by decide, ?_, ?_, ?_⟩
  · intro cs h
    unfold parse_date_range
    simp [h]
  · intro cs p q hsplit hbad
    unfold parse_date_range
    rcases hbad with hb | hb
    · simp [hsplit, hb]
    · rcases hp2 : parse_date p with _ | a <;> simp [hsplit, hb, hp2]
  · intro cs hsplit hdate
    unfold parse_date_range
    simp [hsplit, hdate]

/-- C5 witness: concrete inputs discharging each hypothesis-guarded
conjunct: the direct-registration sentence, the day-32 malformed range, and
an unparsable single date. -/
theorem c5_no_window_witness :
    parse_date_range ("Die Anmeldung erfolgt direkt beim Veranstalter.".data) = none
    ∧ parse_date_range ("01.01.2024 - 32.01.2024".data) = none
    ∧ parse_date_range ("kostenlos".data) = none :=
  ⟨c5_no_window.2.2.1 _ (by decide),
   c5_no_window.2.2.2.1 ("01.01.2024 - 32.01.2024".data)
     ("01.01.2024".data) ("32.01.2024".data) (by decide) (Or.inr (by decide)),
   c5_no_window.2.2.2.2 _ (by decide) (by decide)⟩

/-- Characters with the same code point are equal. -/
theorem charToNat_inj {a b : Char} (h : a.toNat = b.toNat) : a = b := by
  cases a; cases b
  simp only [Char.toNat] at h
  congr 1
  exact UInt32.ext h

/-- String comparison is irreflexive. -/
theorem strLtB_irrefl : ∀ a : List Char, strLtB a a = false
  | [] => rfl
  | a :: as => by simp [strLtB, strLtB_irrefl as]

/-- Unfolding of string comparison on two nonempty strings. -/
theorem strLtB_cons_iff (a b : Char) (as bs : List Char) :
    strLtB (a :: as) (b :: bs) = true ↔
      a.toNat < b.toNat ∨ (a.toNat = b.toNat ∧ strLtB as bs = true) := by
  simp only [strLtB]
  split_ifs with h1 h2
  · simp [h1]
  · constructor
    · intro hf; exact absurd hf (by simp)
    · rintro (hc | ⟨hc, _⟩) <;> omega
  · have he : a.toNat = b.toNat := by omega
    simp [he, h1]

/-- String comparison is asymmetric. -/
theorem strLtB_asymm : ∀ {a b : List Char}, strLtB a b = true → strLtB b a = false
  | [], [], h => by simp [strLtB] at h
  | [], _ :: _, _ => by simp [strLtB]
  | _ :: _, [], h => by simp [strLtB] at h
  | a :: as, b :: bs, h => by
    rw [strLtB_cons_iff] at h
    apply Bool.eq_false_iff.mpr
    intro hv
    rw [strLtB_cons_iff] at hv
    rcases h with h | ⟨he, hs⟩ <;> rcases hv with hv | ⟨hve, hvs⟩
    · omega
    · omega
    · omega
    · rw [strLtB_asymm hs] at hvs
      exact absurd hvs (by simp)

/-- String comparison is transitive. -/
theorem strLtB_trans : ∀ {a b c : List Char},
    strLtB a b = true → strLtB b c = true → strLtB a c = true
  | [], [], _, h1, _ => by simp [strLtB] at h1
  | [], _ :: _, [], _, h2 => by simp [strLtB] at h2
  | [], _ :: _, _ :: _, _, _ => by simp [strLtB]
  | _ :: _, [], _, h1, _ => by simp [strLtB] at h1
  | _ :: _, _ :: _, [], _, h2 => by simp [strLtB] at h2
  | a :: as, b :: bs, c :: cs, h1, h2 => by
    rw [strLtB_cons_iff] at h1 h2 ⊢
    rcases h1 with h1 | ⟨h1e, h1s⟩
    · rcases h2 with h2 | ⟨h2e, _⟩
      · exact Or.inl (h1.trans h2)
      · exact Or.inl (by omega)
    · rcases h2 with h2 | ⟨h2e, h2s⟩
      · exact Or.inl (by omega)
      · exact Or.inr ⟨by omega, strLtB_trans h1s h2s⟩

/-- Two strings neither of which is below the other are equal. -/
theorem strLtB_conn : ∀ {a b : List Char},
    strLtB a b = false → strLtB b a = false → a = b
  | [], [], _, _ => rfl
  | [], _ :: _, h1, _ => by simp [strLtB] at h1
  | _ :: _, [], _, h2 => by simp [strLtB] at h2
  | a :: as, b :: bs, h1, h2 => by
    by_cases hab : a.toNat < b.toNat
    · rw [show strLtB (a :: as) (b :: bs) = true from by
        rw [strLtB_cons_iff]; exact Or.inl hab] at h1
      exact absurd h1 (by simp)
    · by_cases hba : b.toNat < a.toNat
      · rw [show strLtB (b :: bs) (a :: as) = true from by
          rw [strLtB_cons_iff]; exact Or.inl hba] at h2
        exact absurd h2 (by simp)
      · have he : a.toNat = b.toNat := by omega
        have hab2 : a = b := charToNat_inj he
        subst hab2
        simp only [strLtB, Nat.lt_irrefl, if_false] at h1 h2
        rw [strLtB_conn h1 h2]

/-- Key comparison is irreflexive. -/
theorem keyLtB_irrefl (k : List Char × List Char × List Char) :
    keyLtB k k = false := by
  rcases k with ⟨y, m, d⟩
  simp [keyLtB, strLtB_irrefl]

/-- Unfolding of the tuple comparison into the lexicographic disjunction. -/
theorem keyLtB_iff (k1 k2 : List Char × List Char × List Char) :
    keyLtB k1 k2 = true ↔
      strLtB k1.1 k2.1 = true
      ∨ (k1.1 = k2.1 ∧ strLtB k1.2.1 k2.2.1 = true)
      ∨ (k1.1 = k2.1 ∧ k1.2.1 = k2.2.1 ∧ strLtB k1.2.2 k2.2.2 = true) := by
  rcases k1 with ⟨y1, m1, d1⟩
  rcases k2 with ⟨y2, m2, d2⟩
  simp only [keyLtB]
  by_cases hy1 : strLtB y1 y2 = true
  · simp [hy1]
  · replace hy1 : strLtB y1 y2 = false := by simpa using hy1
    by_cases hy2 : strLtB y2 y1 = true
    · have hne : ¬(y1 = y2) := by
        intro he
        subst he
        rw [strLtB_irrefl] at hy2
        exact absurd hy2 (by simp)
      simp [hy1, hy2, hne]
    · replace hy2 : strLtB y2 y1 = false := by simpa using hy2
      have hye : y1 = y2 := strLtB_conn hy1 hy2
      subst hye
      simp only [hy1, if_false, Bool.false_eq_true, true_and]
      by_cases hm1 : strLtB m1 m2 = true
      · simp [hm1]
      · replace hm1 : strLtB m1 m2 = false := by simpa using hm1
        by_cases hm2 : strLtB m2 m1 = true
        · have hne : ¬(m1 = m2) := by
            intro he
            subst he
            rw [strLtB_irrefl] at hm2
            exact absurd hm2 (by simp)
          simp [hm1, hm2, hne]
        · replace hm2 : strLtB m2 m1 = false := by simpa using hm2
          have hme : m1 = m2 := strLtB_conn hm1 hm2
          subst hme
          simp [hm1]

/-- Key comparison is asymmetric. -/
theorem keyLtB_asymm {k1 k2 : List Char × List Char × List Char}
    (h : keyLtB k1 k2 = true) : keyLtB k2 k1 = false := by
  rw [keyLtB_iff] at h
  apply Bool.eq_false_iff.mpr
  intro hv
  rw [keyLtB_iff] at hv
  rcases h with h | ⟨he, h⟩ | ⟨he, he2, h⟩ <;>
    rcases hv with hv | ⟨hve, hv⟩ | ⟨hve, hve2, hv⟩
  · rw [strLtB_asymm h] at hv; exact absurd hv (by simp)
  · rw [hve] at h; rw [strLtB_irrefl] at h; exact absurd h (by simp)
  · rw [hve] at h; rw [strLtB_irrefl] at h; exact absurd h (by simp)
  · rw [he] at hv; rw [strLtB_irrefl] at hv; exact absurd hv (by simp)
  · rw [strLtB_asymm h] at hv; exact absurd hv (by simp)
  · rw [hve2] at h; rw [strLtB_irrefl] at h; exact absurd h (by simp)
  · rw [he] at hv; rw [strLtB_irrefl] at hv; exact absurd hv (by simp)
  · rw [he2] at hv; rw [strLtB_irrefl] at hv; exact absurd hv (by simp)
  · rw [strLtB_asymm h] at hv; exact absurd hv (by simp)

/-- Key comparison is transitive. -/
theorem keyLtB_trans {k1 k2 k3 : List Char × List Char × List Char}
    (h1 : keyLtB k1 k2 = true) (h2 : keyLtB k2 k3 = true) :
    keyLtB k1 k3 = true := by
  rw [keyLtB_iff] at h1 h2 ⊢
  rcases h1 with h1 | ⟨e1, h1⟩ | ⟨e1, f1, h1⟩ <;>
    rcases h2 with h2 | ⟨e2, h2⟩ | ⟨e2, f2, h2⟩
  · exact Or.inl (strLtB_trans h1 h2)
  · exact Or.inl (e2 ▸ h1)
  · exact Or.inl (e2 ▸ h1)
  · exact Or.inl (e1 ▸ h2)
  · exact Or.inr (Or.inl ⟨e1.trans e2, strLtB_trans h1 h2⟩)
  · exact Or.inr (Or.inl ⟨e1.trans e2, f2 ▸ h1⟩)
  · exact Or.inl (e1 ▸ h2)
  · exact Or.inr (Or.inl ⟨e1.trans e2, f1 ▸ h2⟩)
  · exact Or.inr (Or.inr ⟨e1.trans e2, f1.trans f2, strLtB_trans h1 h2⟩)

/-- Two keys neither of which is below the other are equal. -/
theorem keyLtB_conn {k1 k2 : List Char × List Char × List Char}
    (h1 : keyLtB k1 k2 = false) (h2 : keyLtB k2 k1 = false) : k1 = k2 := by
  have h1' : ¬(strLtB k1.1 k2.1 = true
      ∨ (k1.1 = k2.1 ∧ strLtB k1.2.1 k2.2.1 = true)
      ∨ (k1.1 = k2.1 ∧ k1.2.1 = k2.2.1 ∧ strLtB k1.2.2 k2.2.2 = true)) := by
    intro hr
    rw [(keyLtB_iff k1 k2).mpr hr] at h1
    exact absurd h1 (by simp)
  have h2' : ¬(strLtB k2.1 k1.1 = true
      ∨ (k2.1 = k1.1 ∧ strLtB k2.2.1 k1.2.1 = true)
      ∨ (k2.1 = k1.1 ∧ k2.2.1 = k1.2.1 ∧ strLtB k2.2.2 k1.2.2 = true)) := by
    intro hr
    rw [(keyLtB_iff k2 k1).mpr hr] at h2
    exact absurd h2 (by simp)
  push_neg at h1' h2'
  obtain ⟨hy1, hm1, hd1⟩ := h1'
  obtain ⟨hy2, hm2, hd2⟩ := h2'
  have hye : k1.1 = k2.1 :=
    strLtB_conn (by simpa using hy1) (by simpa using hy2)
  have hme : k1.2.1 = k2.2.1 :=
    strLtB_conn (by simpa using hm1 hye) (by simpa using hm2 hye.symm)
  have hde : k1.2.2 = k2.2.2 :=
    strLtB_conn (by simpa using hd1 hye hme) (by simpa using hd2 hye.symm hme.symm)
  rcases k1 with ⟨y1, m1, d1⟩
  rcases k2 with ⟨y2, m2, d2⟩
  simp_all

/-- Moving from the not-below form of the key order across a middle key. -/
theorem keyLtB_neg_trans {a b c : List Char × List Char × List Char}
    (h1 : keyLtB b a = false) (h2 : keyLtB c b = false) : keyLtB c a = false := by
  apply Bool.eq_false_iff.mpr
  intro hca
  by_cases hbc : keyLtB b c = true
  · rw [keyLtB_trans hbc hca] at h1
    exact absurd h1 (by simp)
  · have he : b = c := keyLtB_conn (by simpa using hbc) h2
    rw [← he] at hca
    rw [hca] at h1
    exact absurd h1 (by simp)

/-- Membership in a stable insertion. -/
theorem mem_insertOcc {x a : EventOcc} :
    ∀ {l : List EventOcc}, a ∈ insertOcc x l ↔ a = x ∨ a ∈ l
  | [] => by simp [insertOcc]
  | y :: ys => by
    simp only [insertOcc]
    split
    · simp only [List.mem_cons, mem_insertOcc (l := ys)]
      tauto
    · simp only [List.mem_cons]
      try tauto

/-- Membership is preserved by the stable sort. -/
theorem mem_sortOcc {a : EventOcc} :
    ∀ {l : List EventOcc}, a ∈ sortOcc l ↔ a ∈ l
  | [] => by simp [sortOcc]
  | x :: xs => by
    simp only [sortOcc, mem_insertOcc, mem_sortOcc (l := xs), List.mem_cons]

/-- Inserting into a list sorted by the date key keeps it sorted. -/
theorem pairwise_insertOcc (x : EventOcc) :
    ∀ {l : List EventOcc}, l.Pairwise keyLeR → (insertOcc x l).Pairwise keyLeR
  | [], _ => by simp [insertOcc, List.pairwise_cons]
  | y :: ys, h => by
    rcases List.pairwise_cons.mp h with ⟨hy, hys⟩
    simp only [insertOcc]
    split
    · rename_i hlt
      refine List.pairwise_cons.mpr ⟨?_, pairwise_insertOcc x hys⟩
      intro z hz
      rcases mem_insertOcc.mp hz with rfl | hz'
      · exact keyLtB_asymm hlt
      · exact hy z hz'
    · rename_i hnlt
      have hxy : keyLtB (sortKey y) (sortKey x) = false := by simpa using hnlt
      refine List.pairwise_cons.mpr ⟨?_, h⟩
      intro z hz
      rcases List.mem_cons.mp hz with rfl | hz'
      · exact hxy
      · exact keyLtB_neg_trans hxy (hy z hz')

/-- The stable sort produces a list sorted by the date key. -/
theorem sorted_sortOcc : ∀ l : List EventOcc, (sortOcc l).Pairwise keyLeR
  | [] => by simp [sortOcc]
  | x :: xs => pairwise_insertOcc x (sorted_sortOcc xs)

/-- Stability of a single insertion: restricted to any one key value, the
inserted element lands in front and the rest keep their order. -/
theorem filter_insertOcc (x : EventOcc) (k : List Char × List Char × List Char) :
    ∀ l : List EventOcc,
      (insertOcc x l).filter (fun e => sortKey e == k)
        = if sortKey x == k then x :: l.filter (fun e => sortKey e == k)
          else l.filter (fun e => sortKey e == k)
  | [] => by by_cases h : sortKey x == k <;> simp [insertOcc, List.filter, h]
  | y :: ys => by
    simp only [insertOcc]
    split
    · rename_i hlt
      rw [List.filter_cons, List.filter_cons, filter_insertOcc x k ys]
      by_cases hx : (sortKey x == k) = true
      · have hkx : sortKey x = k := by simpa using hx
        have hyk : (sortKey y == k) = false := by
          apply Bool.eq_false_iff.mpr
          intro hyk
          have hky : sortKey y = k := by simpa using hyk
          rw [hky, hkx, keyLtB_irrefl] at hlt
          exact absurd hlt (by simp)
        simp [hx, hyk]
      · have hx' : (sortKey x == k) = false := by simpa using hx
        simp [hx']
    · simp [List.filter_cons]

/-- Stability of the whole sort: for every key value `k`, the occurrences
whose key is exactly `k` appear in the sorted output in their input order. -/
theorem filter_sortOcc (k : List Char × List Char × List Char) :
    ∀ l : List EventOcc,
      (sortOcc l).filter (fun e => sortKey e == k)
        = l.filter (fun e => sortKey e == k)
  | [] => rfl
  | x :: xs => by
    simp only [sortOcc]
    rw [filter_insertOcc, filter_sortOcc k xs, List.filter_cons]

/-- A name appears among the first-seen names exactly when it is absent from
the `seen` accumulator and named by some occurrence. -/
theorem mem_firstSeenAux {n : List Char} :
    ∀ (seen : List (List Char)) (evs : List EventOcc),
      n ∈ firstSeenAux seen evs ↔ n ∉ seen ∧ ∃ e ∈ evs, e.name = n
  | seen, [] => by simp [firstSeenAux]
  | seen, e :: rest => by
    simp only [firstSeenAux]
    split
    · rename_i hc
      have hmem : e.name ∈ seen := List.elem_iff.mp hc
      rw [mem_firstSeenAux seen rest]
      constructor
      · rintro ⟨hns, f, hf, hfn⟩
        exact ⟨hns, f, List.mem_cons_of_mem e hf, hfn⟩
      · rintro ⟨hns, f, hf, hfn⟩
        rcases List.mem_cons.mp hf with rfl | hf'
        · exact absurd (hfn ▸ hmem) hns
        · exact ⟨hns, f, hf', hfn⟩
    · rename_i hc
      have hnmem : e.name ∉ seen := fun hm => hc (List.elem_iff.mpr hm)
      rw [List.mem_cons, mem_firstSeenAux (e.name :: seen) rest]
      constructor
      · rintro (rfl | ⟨hns, f, hf, hfn⟩)
        · exact ⟨hnmem, e, List.mem_cons_self e rest, rfl⟩
        · exact ⟨fun hm => hns (List.mem_cons_of_mem _ hm), f,
            List.mem_cons_of_mem e hf, hfn⟩
      · rintro ⟨hns, f, hf, hfn⟩
        by_cases hne : n = e.name
        · exact Or.inl hne
        · rcases List.mem_cons.mp hf with rfl | hf'
          · exact absurd hfn.symm hne
          · exact Or.inr ⟨by
              intro hm
              rcases List.mem_cons.mp hm with h' | h'
              · exact hne h'
              · exact hns h', f, hf', hfn⟩

/-- The first-seen name list has no duplicates. -/
theorem nodup_firstSeenAux :
    ∀ (seen : List (List Char)) (evs : List EventOcc),
      (firstSeenAux seen evs).Nodup
  | seen, [] => by simp [firstSeenAux]
  | seen, e :: rest => by
    simp only [firstSeenAux]
    split
    · exact nodup_firstSeenAux seen rest
    · refine List.nodup_cons.mpr ⟨?_, nodup_firstSeenAux (e.name :: seen) rest⟩
      intro hmem
      have := (mem_firstSeenAux (e.name :: seen) rest).mp hmem
      exact this.1 (List.mem_cons_self _ _)

/-- A name is a first-seen name exactly when some occurrence carries it. -/
theorem mem_firstSeenNames {n : List Char} {evs : List EventOcc} :
    n ∈ firstSeenNames evs ↔ ∃ e ∈ evs, e.name = n := by
  rw [firstSeenNames, mem_firstSeenAux]
  simp

/-- The first-seen names are distinct. -/
theorem nodup_firstSeenNames (evs : List EventOcc) :
    (firstSeenNames evs).Nodup := nodup_firstSeenAux [] evs

/-- Occurrences of the group keyed by `n` all carry the name `n`. -/
theorem name_of_mem_groupFilter {evs : List EventOcc} {n : List Char}
    {e : EventOcc} (he : e ∈ sortOcc (evs.filter (fun e => e.name == n))) :
    e.name = n := by
  have := List.of_mem_filter (mem_sortOcc.mp he)
  simpa using this

/-- Every row of the block keyed by `n` carries the name `n`. -/
theorem name_of_mem_blockRows {evs : List EventOcc} {n : List Char}
    {r : OutputRow} (hr : r ∈ blockRows evs n) : r.name = n := by
  rw [blockRows] at hr
  rcases hs : sortOcc (evs.filter (fun e => e.name == n)) with _ | ⟨h, t⟩
  · rw [hs] at hr
    simp [emitGroup] at hr
  · rw [hs] at hr
    simp only [emitGroup, List.mem_cons] at hr
    rcases hr with rfl | hr
    · have : h ∈ sortOcc (evs.filter (fun e => e.name == n)) := by
        rw [hs]; exact List.mem_cons_self _ _
      simpa [primaryRow] using name_of_mem_groupFilter this
    · rcases List.mem_map.mp hr with ⟨e, _, rfl⟩
      rfl

/-- The dates of a rendered group are the dates of its sorted occurrences. -/
theorem map_date_emitGroup (n : List Char) :
    ∀ l : List EventOcc,
      (emitGroup n l).map (fun r => r.date) = l.map (fun e => e.date)
  | [] => rfl
  | e :: rest => by
    simp [emitGroup, primaryRow, contRow, List.map_map, Function.comp]

/-- Filtering the whole grouped output by a name recovers exactly that
name's block. -/
theorem filter_name_eq_block (evs : List EventOcc) (n : List Char) :
    (group_events_by_name evs).filter (fun r => r.name == n) = blockRows evs n := by
  have hgen : ∀ (names : List (List Char)), names.Nodup →
      (names.flatMap (blockRows evs)).filter (fun r => r.name == n)
        = if n ∈ names then blockRows evs n else [] := by
    intro names
    induction names with
    | nil => intro _; simp
    | cons m rest ih =>
      intro hnd
      rcases List.nodup_cons.mp hnd with ⟨hms, hrest⟩
      simp only [List.flatMap_cons, List.filter_append, ih hrest]
      by_cases hmn : m = n
      · subst hmn
        rw [if_neg hms, if_pos (List.mem_cons_self _ _)]
        rw [List.filter_eq_self.mpr]
        · simp
        · intro r hr
          simp [name_of_mem_blockRows hr]
      · have : (blockRows evs m).filter (fun r => r.name == n) = [] := by
          apply List.filter_eq_nil_iff.mpr
          intro r hr
          simp [name_of_mem_blockRows hr, hmn]
        rw [this]
        simp only [List.nil_append]
        by_cases hnr : n ∈ rest
        · rw [if_pos hnr, if_pos (List.mem_cons_of_mem _ hnr)]
        · rw [if_neg hnr, if_neg (by
            intro hc
            rcases List.mem_cons.mp hc with h' | h'
            · exact hmn h'.symm
            · exact hnr h')]
  rw [group_events_by_name, hgen _ (nodup_firstSeenNames evs)]
  by_cases hmem : n ∈ firstSeenNames evs
  · rw [if_pos hmem]
  · rw [if_neg hmem, blockRows]
    have : evs.filter (fun e => e.name == n) = [] := by
      apply List.filter_eq_nil_iff.mpr
      intro e he hc
      exact hmem (mem_firstSeenNames.mpr ⟨e, he, by simpa using hc⟩)
    rw [this]
    rfl

/-- Continuation rows never pass the primary-row filter. -/
theorem filter_primary_contMap (n : List Char) (t : List EventOcc) :
    (t.map (contRow n)).filter (fun r => !r.is_continuation) = [] := by
  apply List.filter_eq_nil_iff.mpr
  intro r hr
  rcases List.mem_map.mp hr with ⟨e, _, rfl⟩
  simp [contRow]

/-- A first-seen name's sorted group is nonempty and headed by an
occurrence carrying that name. -/
theorem block_shape {evs : List EventOcc} {n : List Char}
    (hn : n ∈ firstSeenNames evs) :
    ∃ h t, sortOcc (evs.filter (fun e => e.name == n)) = h :: t ∧ h.name = n := by
  rcases mem_firstSeenNames.mp hn with ⟨e, he, rfl⟩
  have hmem : e ∈ sortOcc (evs.filter (fun x => x.name == e.name)) :=
    mem_sortOcc.mpr (List.mem_filter.mpr ⟨he, by simp⟩)
  rcases hs : sortOcc (evs.filter (fun x => x.name == e.name)) with _ | ⟨h, t⟩
  · rw [hs] at hmem
    exact absurd hmem (List.not_mem_nil e)
  · refine ⟨h, t, rfl, ?_⟩
    have : h ∈ sortOcc (evs.filter (fun x => x.name == e.name)) := by
      rw [hs]; exact List.mem_cons_self _ _
    exact name_of_mem_groupFilter this

/-- C2 counterexample: a group whose occurrences have the dates
`"aa.bb.cccc"`, `"foo"`, `"15.06.2024"` (in that input order). Both
`"aa.bb.cccc"` and `"foo"` are unparsable dates, so the claim's key maps
both to the sentinel and, by stability, predicts they keep their relative
input order after the one parsable date: `[15.06.2024, aa.bb.cccc, foo]`.
The code instead keys `"aa.bb.cccc"` by its three dot-parts as
`("cccc","bb","aa")`, which is not the sentinel and sorts after it, giving
`[15.06.2024, foo, aa.bb.cccc]` — the two unparsable-date occurrences come
out in reversed relative order, and an unparsable date is not mapped to
the sentinel. -/
theorem c2_counterexample :
    (group_events_by_name
        [mkOcc ("E".data) ("aa.bb.cccc".data),
         mkOcc ("E".data) ("foo".data),
         mkOcc ("E".data) ("15.06.2024".data)]).map (fun r => r.date)
      = ["15.06.2024".data, "foo".data, "aa.bb.cccc".data]
    ∧ parse_date_for_sort ("aa.bb.cccc".data) ≠ sentinelKey := by decide

/-- C2 (amended): within every group produced by the grouper, occurrences
are stable-sorted by the key that splits the date string on `'.'` and maps
a three-part split `[d, m, y]` to the string triple `(y, m, d)` and every
other date to the sentinel `('9999','99','99')`: the group's rows carry the
sorted occurrences' dates, the sorted occurrences are pairwise in key
order, and for each key value (in particular the sentinel shared by all
dates that do not split into three parts) the occurrences with that exact
key keep their relative input order. -/
theorem c2_amended (evs : List EventOcc) (n : List Char) :
    ((group_events_by_name evs).filter (fun r => r.name == n)).map (fun r => r.date)
        = (sortOcc (evs.filter (fun e => e.name == n))).map (fun e => e.date)
    ∧ (sortOcc (evs.filter (fun e => e.name == n))).Pairwise keyLeR
    ∧ ∀ k, (sortOcc (evs.filter (fun e => e.name == n))).filter
            (fun e => sortKey e == k)
          = (evs.filter (fun e => e.name == n)).filter (fun e => sortKey e == k) := by
  refine ⟨?_, sorted_sortOcc _, fun k => filter_sortOcc k _⟩
  rw [filter_name_eq_block, blockRows, map_date_emitGroup]

/-- C7: the grouped output preserves the first-seen order of event names
(the primary rows' names, in output order, are exactly the first-seen
names), rows of different groups are never interleaved (the output is the
concatenation, in first-seen name order, of the rows filtered to each
name), and within a group the first row is the primary and all following
rows are continuations. -/
theorem c7_group_structure (evs : List EventOcc) :
    ((group_events_by_name evs).filter (fun r => !r.is_continuation)).map
        (fun r => r.name) = firstSeenNames evs
    ∧ group_events_by_name evs
        = (firstSeenNames evs).flatMap
            (fun n => (group_events_by_name evs).filter (fun r => r.name == n))
    ∧ ∀ n, (((group_events_by_name evs).filter (fun r => r.name == n)).take 1).all
             (fun r => !r.is_continuation)
         ∧ (((group_events_by_name evs).filter (fun r => r.name == n)).drop 1).all
             (fun r => r.is_continuation) := by
  refine ⟨?_, ?_, ?_⟩
  · rw [group_events_by_name]
    have hgen : ∀ names : List (List Char),
        (∀ m ∈ names, ∃ h t,
          sortOcc (evs.filter (fun e => e.name == m)) = h :: t ∧ h.name = m) →
        ((names.flatMap (blockRows evs)).filter (fun r => !r.is_continuation)).map
          (fun r => r.name) = names := by
      intro names
      induction names with
      | nil => intro _; rfl
      | cons m rest ih =>
        intro hp
        obtain ⟨h, t, hshape, hname⟩ := hp m (List.mem_cons_self _ _)
        simp only [List.flatMap_cons, List.filter_append, List.map_append]
        rw [ih (fun m' hm' => hp m' (List.mem_cons_of_mem _ hm'))]
        rw [blockRows, hshape]
        simp [emitGroup, List.filter_cons, primaryRow, filter_primary_contMap, hname]
    exact hgen _ (fun m hm => block_shape hm)
  · have hfix : (fun n => (group_events_by_name evs).filter (fun r => r.name == n))
        = blockRows evs := funext (fun n => filter_name_eq_block evs n)
    rw [hfix]
    rfl
  · intro n
    rw [filter_name_eq_block, blockRows]
    rcases hs : sortOcc (evs.filter (fun e => e.name == n)) with _ | ⟨h, t⟩
    · simp [emitGroup]
    · constructor
      · simp [emitGroup, primaryRow]
      · simp only [emitGroup, List.drop_succ_cons, List.drop_zero]
        apply List.all_eq_true.mpr
        intro r hr
        rcases List.mem_map.mp hr with ⟨e, _, rfl⟩
        simp [contRow]

/-- C8: every continuation row of the grouped output has its description,
age and place blanked, and carries its own occurrence's URL, date, time and
raw sign-up text together with the group's name. -/
theorem c8_continuation_fields (evs : List EventOcc) (r : OutputRow)
    (hr : r ∈ group_events_by_name evs) (hc : r.is_continuation = true) :
    r.description = [] ∧ r.age = [] ∧ r.place = []
    ∧ ∃ e, e ∈ evs ∧ e.name = r.name ∧ r.event_url = e.event_url
        ∧ r.date = e.date ∧ r.time = e.time ∧ r.sign_up_date = e.sign_up_date := by
  rw [group_events_by_name] at hr
  rcases List.mem_flatMap.mp hr with ⟨n, hn, hrb⟩
  rw [blockRows] at hrb
  rcases hs : sortOcc (evs.filter (fun e => e.name == n)) with _ | ⟨h, t⟩
  · rw [hs] at hrb
    simp [emitGroup] at hrb
  · rw [hs] at hrb
    simp only [emitGroup, List.mem_cons] at hrb
    rcases hrb with rfl | hrb
    · simp [primaryRow] at hc
    · rcases List.mem_map.mp hrb with ⟨e, het, rfl⟩
      have hes : e ∈ sortOcc (evs.filter (fun x => x.name == n)) := by
        rw [hs]; exact List.mem_cons_of_mem _ het
      have hee : e ∈ evs := List.mem_of_mem_filter (mem_sortOcc.mp hes)
      have hen : e.name = n := name_of_mem_groupFilter hes
      exact ⟨rfl, rfl, rfl, e, hee, by simpa [contRow] using hen,
        rfl, rfl, rfl, rfl⟩

/-- C8 witness: the continuation row of a concrete two-occurrence group. -/
theorem c8_witness :
    (contRow ("Z".data) wOccA).description = []
    ∧ (contRow ("Z".data) wOccA).age = []
    ∧ (contRow ("Z".data) wOccA).place = []
    ∧ ∃ e, e ∈ [wOccA, wOccB] ∧ e.name = (contRow ("Z".data) wOccA).name
        ∧ (contRow ("Z".data) wOccA).event_url = e.event_url
        ∧ (contRow ("Z".data) wOccA).date = e.date
        ∧ (contRow ("Z".data) wOccA).time = e.time
        ∧ (contRow ("Z".data) wOccA).sign_up_date = e.sign_up_date :=
  c8_continuation_fields [wOccA, wOccB] (contRow ("Z".data) wOccA)
    (by decide) (by decide)

/-- C10: two scraped records with an empty name form a single group keyed
by the empty string; after date sorting one of them is emitted with full
fields as the primary row, and the other — whatever its own description,
age and place were — is reduced to a continuation row of that group. -/
theorem c10_untitled_events (e1 e2 : EventOcc)
    (h1 : e1.name = []) (h2 : e2.name = []) :
    firstSeenNames [e1, e2] = [[]]
    ∧ ∃ a b : EventOcc,
        ((a = e1 ∧ b = e2) ∨ (a = e2 ∧ b = e1))
        ∧ group_events_by_name [e1, e2] = [primaryRow a, contRow [] b]
        ∧ keyLtB (sortKey b) (sortKey a) = false := by
  have hfs : firstSeenNames [e1, e2] = [[]] := by
    simp [firstSeenNames, firstSeenAux, h1, h2, List.contains]
  refine ⟨hfs, ?_⟩
  have hfilter : ([e1, e2].filter (fun e => e.name == ([] : List Char))) = [e1, e2] := by
    simp [List.filter, h1, h2]
  by_cases hk : keyLtB (sortKey e2) (sortKey e1) = true
  · refine ⟨e2, e1, Or.inr ⟨rfl, rfl⟩, ?_, keyLtB_asymm hk⟩
    rw [group_events_by_name, hfs]
    simp only [List.flatMap_cons, List.flatMap_nil, List.append_nil]
    rw [blockRows, hfilter]
    simp only [sortOcc, insertOcc, hk, if_true, emitGroup, List.map_cons,
      List.map_nil]
  · have hk' : keyLtB (sortKey e2) (sortKey e1) = false := by simpa using hk
    refine ⟨e1, e2, Or.inl ⟨rfl, rfl⟩, ?_, hk'⟩
    rw [group_events_by_name, hfs]
    simp only [List.flatMap_cons, List.flatMap_nil, List.append_nil]
    rw [blockRows, hfilter]
    simp only [sortOcc, insertOcc, hk', if_false, Bool.false_eq_true, emitGroup,
      List.map_cons, List.map_nil]

/-- C10 witness: two concrete untitled records, the second with a full
description of its own, collapse into one primary plus one continuation. -/
theorem c10_witness :
    firstSeenNames [mkOcc [] ("02.06.2024".data), mkOcc [] ("01.06.2024".data)]
      = [[]]
    ∧ ∃ a b : EventOcc,
        ((a = mkOcc [] ("02.06.2024".data) ∧ b = mkOcc [] ("01.06.2024".data))
          ∨ (a = mkOcc [] ("01.06.2024".data) ∧ b = mkOcc [] ("02.06.2024".data)))
        ∧ group_events_by_name
            [mkOcc [] ("02.06.2024".data), mkOcc [] ("01.06.2024".data)]
            = [primaryRow a, contRow [] b]
        ∧ keyLtB (sortKey b) (sortKey a) = false :=
  c10_untitled_events _ _ rfl rfl

/-- C4: every sheet row whose name cell is not the marker glyph is a
primary row carrying `selected = prior_selections.get(name, '')` (the
lookup returning the empty string for absent names), and its name is the
name of some freshly scraped occurrence — so an event present only in the
prior map contributes no such row, and no error. -/
theorem c4_selection_reapplication (evs : List EventOcc)
    (sel : List (List Char × List Char)) (r : XRow)
    (hr : r ∈ save_to_excel evs sel) (hn : r.name ≠ CONTINUATION_LINK_MARKER) :
    r.selected = lookupSel sel r.name ∧ ∃ e, e ∈ evs ∧ e.name = r.name := by
  rcases List.mem_map.mp hr with ⟨o, ho, rfl⟩
  by_cases hc : o.is_continuation = true
  · exact absurd (by simp [toSheetRow, hc]) hn
  · have hc2 : o.is_continuation = false := by simpa using hc
    constructor
    · simp [toSheetRow, hc2]
    · rw [group_events_by_name] at ho
      rcases List.mem_flatMap.mp ho with ⟨n, hnn, hob⟩
      rw [blockRows] at hob
      rcases hs : sortOcc (evs.filter (fun e => e.name == n)) with _ | ⟨h, t⟩
      · rw [hs] at hob
        simp [emitGroup] at hob
      · rw [hs] at hob
        simp only [emitGroup, List.mem_cons] at hob
        rcases hob with rfl | hob
        · have hh : h ∈ sortOcc (evs.filter (fun e => e.name == n)) := by
            rw [hs]; exact List.mem_cons_self _ _
          refine ⟨h, List.mem_of_mem_filter (mem_sortOcc.mp hh), ?_⟩
          simp [toSheetRow, primaryRow, hc2]
        · rcases List.mem_map.mp hob with ⟨e, _, rfl⟩
          simp [contRow] at hc2

/-- C4 witness: in a concrete regenerated sheet, the primary row for
"Zoo Besuch" again carries selection "X". -/
theorem c4_witness :
    wSelRow.selected = lookupSel wSelMap wSelRow.name
    ∧ ∃ e, e ∈ [wSelOcc] ∧ e.name = wSelRow.name :=
  c4_selection_reapplication [wSelOcc] wSelMap wSelRow (by decide) (by decide)

/-- A document with no heading matching the label yields the empty field. -/
theorem extract_nil_of_no_match :
    ∀ (doc : List Elem) (label : List Char),
      (∀ e ∈ doc, ¬(e.tag = "h3".data ∧
        containsSub (lowerStr e.text) (lowerStr label) = true)) →
      extract_field_by_header doc label = []
  | [], _, _ => rfl
  | e :: rest, label, h => by
    have he := h e (List.mem_cons_self _ _)
    have hcond : (e.tag == "h3".data
        && containsSub (lowerStr e.text) (lowerStr label)) = false := by
      by_cases ht : e.tag = "h3".data
      · have : containsSub (lowerStr e.text) (lowerStr label) = false := by
          rcases hv : containsSub (lowerStr e.text) (lowerStr label) with _ | _
          · rfl
          · exact absurd ⟨ht, hv⟩ he
        simp [ht, this]
      · simp [ht]
    simp only [extract_field_by_header, hcond, Bool.false_eq_true, if_false]
    exact extract_nil_of_no_match rest label
      (fun e' he' => h e' (List.mem_cons_of_mem _ he'))

/-- The siblings following the first found tag are elements of the page. -/
theorem mem_rest_findFirstTag {t : List Char} :
    ∀ {doc : List Elem} {h2 : Elem} {rest : List Elem},
      findFirstTag t doc = some (h2, rest) → ∀ e ∈ rest, e ∈ doc
  | [], _, _, hf => by simp [findFirstTag] at hf
  | d :: ds, h2, rest, hf => by
    simp only [findFirstTag] at hf
    split at hf
    · injection hf with hf'
      injection hf' with h1 h2'
      subst h2'
      exact fun e he => List.mem_cons_of_mem _ he
    · exact fun e he =>
        List.mem_cons_of_mem _ (mem_rest_findFirstTag hf e he)

/-- The post-title walk finds nothing on a page without a substantial
paragraph. -/
theorem descAfterH2_nil :
    ∀ l : List Elem,
      (∀ e ∈ l, ¬(e.tag = "p".data ∧ 50 < (clean_text e.text).length)) →
      descAfterH2 l = []
  | [], _ => rfl
  | e :: rest, h => by
    simp only [descAfterH2]
    split
    · rfl
    · split
      · rename_i hp
        rw [Bool.and_eq_true] at hp
        exact absurd ⟨by simpa using hp.1, by simpa using hp.2⟩
          (h e (List.mem_cons_self _ _))
      · exact descAfterH2_nil rest (fun e' he' => h e' (List.mem_cons_of_mem _ he'))

/-- The page-wide fallback finds nothing on a page without a substantial
paragraph. -/
theorem firstSubstantialPara_nil :
    ∀ l : List Elem,
      (∀ e ∈ l, ¬(e.tag = "p".data ∧ 50 < (clean_text e.text).length)) →
      firstSubstantialPara l = []
  | [], _ => rfl
  | e :: rest, h => by
    simp only [firstSubstantialPara]
    split
    · rename_i hp
      rw [Bool.and_eq_true] at hp
      exact absurd ⟨by simpa using hp.1, by simpa using hp.2⟩
        (h e (List.mem_cons_self _ _))
    · exact firstSubstantialPara_nil rest
        (fun e' he' => h e' (List.mem_cons_of_mem _ he'))

/-- C6: the detail parser always returns a complete record (it is a total
function into the 8-field record type) whose `event_url` is the given url;
a page with no heading matching a label leaves that labelled field empty; a
page with no registration headings gets the `'Not specified'` sentinel; a
page with no substantial paragraph gets the `'No description available'`
placeholder; and a failed fetch is replaced by the placeholder record
carrying the error marker in the name and the failure text in the
description. -/
theorem c6_detail_record (doc : List Elem) (url msg ld : List Char) :
    (parse_event_page doc url).event_url = url
    ∧ ((∀ e ∈ doc, ¬(e.tag = "h3".data ∧
          containsSub (lowerStr e.text) (lowerStr ("Alter".data)) = true)) →
        (parse_event_page doc url).age = [])
    ∧ ((∀ e ∈ doc, ¬(e.tag = "h3".data ∧
          containsSub (lowerStr e.text) (lowerStr ("Treffpunkt".data)) = true)) →
        (parse_event_page doc url).place = [])
    ∧ ((∀ e ∈ doc, ¬(e.tag = "h3".data ∧
          containsSub (lowerStr e.text) (lowerStr ("Datum".data)) = true)) →
        (parse_event_page doc url).date = [])
    ∧ ((∀ e ∈ doc, ¬(e.tag = "h3".data ∧
          containsSub (lowerStr e.text) (lowerStr ("Uhrzeit".data)) = true)) →
        (parse_event_page doc url).time = [])
    ∧ ((∀ e ∈ doc, ¬(e.tag = "h3".data ∧
          (containsSub (lowerStr e.text) (lowerStr ("Anmeldebeginn".data)) = true
            ∨ containsSub (lowerStr e.text) (lowerStr ("Anmeldung".data)) = true))) →
        (parse_event_page doc url).sign_up_date = notSpecified)
    ∧ ((∀ e ∈ doc, ¬(e.tag = "p".data ∧ 50 < (clean_text e.text).length)) →
        (parse_event_page doc url).description = noDescriptionText)
    ∧ (scrape_event_details (.error msg) url ld).name = "ERROR: ".data ++ url
    ∧ (scrape_event_details (.error msg) url ld).description
        = "Scraping failed: ".data ++ msg
    ∧ (scrape_event_details (.error msg) url ld).event_url = url := by
  refine ⟨by simp [parse_event_page], ?_, ?_, ?_, ?_, ?_, ?_, rfl, rfl, rfl⟩
  · intro h
    simp [parse_event_page, extract_nil_of_no_match doc _ h]
  · intro h
    simp [parse_event_page, extract_nil_of_no_match doc _ h]
  · intro h
    simp [parse_event_page, extract_nil_of_no_match doc _ h]
  · intro h
    simp [parse_event_page, extract_nil_of_no_match doc _ h]
  · intro h
    have hb : extract_field_by_header doc ("Anmeldebeginn".data) = [] :=
      extract_nil_of_no_match doc _
        (fun e he hc => h e he ⟨hc.1, Or.inl hc.2⟩)
    have ha : extract_field_by_header doc ("Anmeldung".data) = [] :=
      extract_nil_of_no_match doc _
        (fun e he hc => h e he ⟨hc.1, Or.inr hc.2⟩)
    simp [parse_event_page, signUpFromDoc, hb, ha]
  · intro h
    have hpara : firstSubstantialPara doc = [] := firstSubstantialPara_nil doc h
    have hdesc1 : (match findFirstTag ("h2".data) doc with
                   | some (_, rest) => descAfterH2 rest
                   | none => []) = [] := by
      rcases hf : findFirstTag ("h2".data) doc with _ | ⟨h2e, rest⟩
      · rfl
      · exact descAfterH2_nil rest
          (fun e he => h e (mem_rest_findFirstTag hf e he))
    simp [parse_event_page, hdesc1, hpara]

/-- C6 witness: the empty page with a concrete url and a concrete fetch
failure discharge every hypothesis. -/
theorem c6_witness :
    (parse_event_page [] ("https://x".data)).age = []
    ∧ (parse_event_page [] ("https://x".data)).sign_up_date = notSpecified
    ∧ (parse_event_page [] ("https://x".data)).description = noDescriptionText
    ∧ (scrape_event_details (.error ("boom".data)) ("https://x".data) []).name
        = "ERROR: ".data ++ "https://x".data :=
  ⟨(c6_detail_record [] ("https://x".data) ("boom".data) []).2.1 (by simp),
   (c6_detail_record [] ("https://x".data) ("boom".data) []).2.2.2.2.2.1 (by simp),
   (c6_detail_record [] ("https://x".data) ("boom".data) []).2.2.2.2.2.2.1 (by simp),
   (c6_detail_record [] ("https://x".data) ("boom".data) []).2.2.2.2.2.2.2.1⟩

/-- C9 counterexample: under the configured defaults (3 attempts, base
delay 2), a run of generic network errors waits a constant 2 seconds
between attempts — the waits `[2, 2]` are not exponentially increasing —
and a run of HTTP 429 responses waits a constant 4 seconds, even once more
after the final failing attempt, giving `[4, 4, 4]`. -/
theorem c9_counterexample :
    make_request_with_retry (fun _ => FetchOutcome.netError)
      = ⟨.error .net, [2, 2], 3⟩
    ∧ make_request_with_retry (fun _ => FetchOutcome.httpError 429)
      = ⟨.error (.http 429), [4, 4, 4], 3⟩ := by decide

/-- The loop never makes more attempts than it has indices. -/
theorem retryFrom_attempts_le :
    ∀ (idxs : List Nat) (oracle : Nat → FetchOutcome) (maxR delay : Nat),
      (retryFrom oracle maxR delay idxs).attempts ≤ idxs.length
  | [], _, _, _ => Nat.le_refl 0
  | i :: rest, oracle, maxR, delay => by
    have ih := retryFrom_attempts_le rest oracle maxR delay
    rcases ho : oracle i with b | _ | code | _ <;>
      simp only [retryFrom, ho, List.length_cons] <;>
        (try split_ifs) <;> simp <;> omega

/-- When no attempt succeeds, the loop ends in an error. -/
theorem retryFrom_error_of_no_success :
    ∀ (idxs : List Nat) (oracle : Nat → FetchOutcome) (maxR delay : Nat),
      (∀ i ∈ idxs, ∀ b, oracle i ≠ .success b) →
      ∃ err, (retryFrom oracle maxR delay idxs).outcome = .error err
  | [], _, _, _, _ => ⟨.exhausted, rfl⟩
  | i :: rest, oracle, maxR, delay, h => by
    have ih := retryFrom_error_of_no_success rest oracle maxR delay
      (fun j hj => h j (List.mem_cons_of_mem _ hj))
    rcases ho : oracle i with b | _ | code | _
    · exact absurd ho (h i (List.mem_cons_self _ _) b)
    · simp only [retryFrom, ho]
      split_ifs
      · exact ih
      · exact ⟨.timeout, rfl⟩
    · simp only [retryFrom, ho]
      split_ifs
      · exact ih
      · exact ⟨.http code, rfl⟩
      · exact ⟨.http code, rfl⟩
    · simp only [retryFrom, ho]
      split_ifs
      · exact ih
      · exact ⟨.net, rfl⟩

/-- C9 (amended): with the configured 3 attempts and base delay 2 the
fetch performs at most 3 attempts and propagates a failure whenever no
attempt succeeds; the waits between attempts are exponentially increasing
(`2, 4`) only for timeouts, while HTTP 429 gets a constant doubled wait
`4, 4, 4` — one even after the final attempt — and generic network errors
a constant base wait `2, 2`. -/
theorem c9_amended (oracle : Nat → FetchOutcome) :
    (make_request_with_retry oracle).attempts ≤ MAX_RETRIES
    ∧ ((∀ i, i < MAX_RETRIES → ∀ b, oracle i ≠ .success b) →
        ∃ err, (make_request_with_retry oracle).outcome = .error err)
    ∧ ((∀ i, oracle i = .timeout) →
        make_request_with_retry oracle
          = ⟨.error .timeout, [INITIAL_BACKOFF, INITIAL_BACKOFF * 2], MAX_RETRIES⟩)
    ∧ ((∀ i, oracle i = .httpError 429) →
        make_request_with_retry oracle
          = ⟨.error (.http 429),
             [INITIAL_BACKOFF * 2, INITIAL_BACKOFF * 2, INITIAL_BACKOFF * 2],
             MAX_RETRIES⟩)
    ∧ ((∀ i, oracle i = .netError) →
        make_request_with_retry oracle
          = ⟨.error .net, [INITIAL_BACKOFF, INITIAL_BACKOFF], MAX_RETRIES⟩) := by
  have hrange : List.range MAX_RETRIES = [0, 1, 2] := rfl
  refine ⟨?_, ?_, ?_, ?_, ?_⟩
  · have := retryFrom_attempts_le (List.range MAX_RETRIES) oracle
      MAX_RETRIES INITIAL_BACKOFF
    simpa [make_request_with_retry, hrange, MAX_RETRIES] using this
  · intro h
    apply retryFrom_error_of_no_success
    intro i hi
    refine h i ?_
    rw [hrange] at hi
    simp only [List.mem_cons, List.not_mem_nil, or_false] at hi
    rcases hi with rfl | rfl | rfl <;> decide
  · intro h
    simp [make_request_with_retry, hrange, retryFrom, h 0, h 1, h 2,
      MAX_RETRIES, INITIAL_BACKOFF]
  · intro h
    simp [make_request_with_retry, hrange, retryFrom, h 0, h 1, h 2,
      MAX_RETRIES, INITIAL_BACKOFF]
  · intro h
    simp [make_request_with_retry, hrange, retryFrom, h 0, h 1, h 2,
      MAX_RETRIES, INITIAL_BACKOFF]

/-- C9 witness: a concrete all-timeout oracle, an all-429 oracle and an
all-network-error oracle discharge the hypothesis-guarded conjuncts. -/
theorem c9_amended_witness :
    make_request_with_retry (fun _ => FetchOutcome.timeout)
      = ⟨.error .timeout, [INITIAL_BACKOFF, INITIAL_BACKOFF * 2], MAX_RETRIES⟩
    ∧ (make_request_with_retry (fun _ => FetchOutcome.timeout)).attempts
        ≤ MAX_RETRIES :=
  ⟨(c9_amended (fun _ => FetchOutcome.timeout)).2.2.1 (fun _ => rfl),
   (c9_amended (fun _ => FetchOutcome.timeout)).1⟩

/-- The row walk of the calendar export computes, for any starting
governing row, exactly the declarative per-row reading: one entry per row
whose governing primary is selected and whose window parses, plus the
count of governed rows without a parsable window. -/
theorem calWalk_spec :
    ∀ (rows : List XRow) (g : Option XRow),
      calWalkGo (govState g).1 (govState g).2 rows
        = ((annotateGov g rows).filterMap calEmit,
           ((annotateGov g rows).filter calSkip).length)
  | [], g => by
    rcases g with _ | p
    · rfl
    · by_cases hs : isSelectedVal p.selected = true <;>
        simp [govState, hs, calWalkGo, annotateGov]
  | r :: rest, g => by
    have hgov := calWalk_spec rest
    simp only [calWalkGo, annotateGov]
    by_cases hcont : isContRow r = true
    · simp only [hcont, if_true]
      rcases g with _ | p
      · simp only [govState, List.filterMap_cons, List.filter_cons, calEmit,
          calSkip]
        simpa [govState] using hgov none
      · by_cases hsel : isSelectedVal p.selected = true
        · simp only [govState, hsel, if_true]
          rcases hpr : parse_date_range r.sign_up with _ | ⟨s, e⟩
          · simp only [List.filterMap_cons, List.filter_cons, calEmit, calSkip,
              hsel, hpr]
            have hg2 := hgov (some p)
            simp only [govState, hsel, if_true] at hg2
            rw [hg2]
            simp
          · simp only [List.filterMap_cons, List.filter_cons, calEmit, calSkip,
              hsel, hpr]
            have hg2 := hgov (some p)
            simp only [govState, hsel, if_true] at hg2
            rw [hg2]
            simp [mkEntry, hcont]
        · have hsel2 : isSelectedVal p.selected = false := by simpa using hsel
          simp only [govState, hsel2, Bool.false_eq_true, if_false,
            List.filterMap_cons, List.filter_cons, calEmit, calSkip, hsel2]
          simpa [govState, hsel2] using hgov (some p)
    · have hcont2 : isContRow r = false := by simpa using hcont
      simp only [hcont2, Bool.false_eq_true, if_false]
      by_cases hsel : isSelectedVal r.selected = true
      · simp only [hsel, if_true]
        rcases hpr : parse_date_range r.sign_up with _ | ⟨s, e⟩
        · simp only [List.filterMap_cons, List.filter_cons, calEmit, calSkip,
            hsel, hpr]
          have hg2 := hgov (some r)
          simp only [govState, hsel, if_true] at hg2
          rw [hg2]
          simp
        · simp only [List.filterMap_cons, List.filter_cons, calEmit, calSkip,
            hsel, hpr]
          have hg2 := hgov (some r)
          simp only [govState, hsel, if_true] at hg2
          rw [hg2]
          simp [mkEntry, hcont2]
      · have hsel2 : isSelectedVal r.selected = false := by simpa using hsel
        simp only [hsel2, Bool.false_eq_true, if_false, List.filterMap_cons,
          List.filter_cons, calEmit, calSkip, hsel2]
        have hg2 := hgov (some r)
        simp only [govState, hsel2, Bool.false_eq_true, if_false] at hg2
        simpa using hg2

/-- C3: the calendar export equals its declarative reading — it emits
exactly one entry per sheet row whose nearest preceding (or own)
non-blank, non-marker row has a non-empty selection and whose sign-up text
parses to a window, the entry carrying `dtstart` = window start, `dtend` =
window end plus one day, an identifier that is a function of the event
name and the window bounds only, and the row's own (or the primary's)
hyperlink; rows under a selected primary whose window does not parse are
exactly the ones counted as skipped, and nothing errors. -/
theorem c3_calendar_export (rows : List XRow) :
    create_calendar_events rows = calendarEntriesSpec rows :=
  calWalk_spec rows none
